import Mathlib

/-!
# Verification of the gastown molecule workflow engine and CLI helpers

This file gives a shallow embedding of the gastown repository's behaviour
and proves the specification claims about it.

The molecule workflow engine (template catalog, variable substitution,
bonder, dependency scheduler, lifecycle manager) is described by the
specification and by `docs/molecules.md` but its implementation is not part
of the repository sample; those components are modelled from the spec, as
marked on each definition.  The `gt mq migrate` command
(`cmd/mq_migrate.go` sample) and the doctor check
`internal/doctor/beads_sync_check.go` are embedded from their Go source.
-/

namespace Gastown

/-! ## Basic data model (§3 of the spec) -/

/-- Step status domain. -/
inductive StepStatus where
  | blocked
  | ready
  | running
  | done
  | failed
deriving DecidableEq, Repr

/-- Durability kind of an instance. -/
inductive Durability where
  | durable
  | ephemeral
deriving DecidableEq, Repr

/-- Instance status domain. -/
inductive InstStatus where
  | active
  | squashed
  | burned
deriving DecidableEq, Repr

/-- Engine error taxonomy (§7 of the spec). -/
inductive EngineError where
  | notFound
  | invalidTemplate
  | missingVariable (name : String)
  | duplicateInstance
  | cycleError
  | alreadyFinalized
deriving DecidableEq, Repr

/-! ## Variable substitution (§4.2)

Modelled from the spec: the substitution engine is not in the repository
sample.  A template text is modelled already lexed into literal and
placeholder tokens (the `{\x7b`var`\x7d}` surface syntax of
`docs/molecules.md` §Variable Substitution); the claims concern binding
coverage, not lexing. -/

/-- A token of a template text: a literal fragment or a `{\x7b`name`\x7d}`
placeholder. -/
inductive Token where
  | lit (s : String)
  | var (name : String)
deriving DecidableEq, Repr

/-- A template text is a sequence of tokens. -/
abbrev Text := List Token

/-- Variable bindings supplied at bond time (`--var key=value`). -/
abbrev Bindings := List (String × String)

/-- Look a variable up in the bindings. -/
def lookupVar (b : Bindings) (name : String) : Option String :=
  (b.find? (fun p => p.1 == name)).map (fun p => p.2)

/-- Modelled from the spec (§4.2, the substitution engine is not in the
repository sample): `resolve(text, bindings)` substitutes every placeholder,
failing with `MissingVariable` naming the placeholder when a placeholder has
no entry in the bindings.  Bindings not referenced by the text are never
consulted. -/
def resolve (text : Text) (b : Bindings) : Except EngineError String :=
  match text with
  | [] => .ok ""
  | .lit s :: rest => (resolve rest b).map (fun r => s ++ r)
  | .var n :: rest =>
    match lookupVar b n with
    | none => .error (.missingVariable n)
    | some v => (resolve rest b).map (fun r => v ++ r)

/-- The placeholders appearing in a text, in order. -/
def placeholders : Text → List String
  | [] => []
  | .lit _ :: rest => placeholders rest
  | .var n :: rest => n :: placeholders rest

/-! ## Doctor check `beads-sync-branch` (from
`internal/doctor/beads_sync_check.go`) -/

/-- Go `strings.Contains content sub`: `sub` occurs contiguously in
`content`. -/
def containsSub (content sub : String) : Bool :=
  decide (sub.data <:+: content.data)

/-- The line appended by `BeadsSyncBranchCheck.Fix`
(`f.WriteString` at line 108 of `beads_sync_check.go`). -/
def syncBranchLine : String := "sync-branch: beads-sync\n"

/-- The content transformation of `BeadsSyncBranchCheck.Fix` on a readable
`.beads/config.yaml`: if the file already contains `sync-branch:` it is left
unchanged (Fix returns nil), otherwise `sync-branch: beads-sync\n` is
appended. -/
def fixContent (content : String) : String :=
  if containsSub content "sync-branch:" then content
  else content ++ syncBranchLine

/-- `BeadsSyncBranchCheck.Fix` as a transformation of the config file state
(`none` models an unreadable or absent file, in which case Fix returns the
read error and touches nothing; an empty rig name returns nil at once). -/
def fixRun (rigName : String) (file : Option String) : Option String :=
  if rigName == "" then file
  else
    match file with
    | none => none
    | some c => some (fixContent c)

/-! ## Steps and the dependency scheduler (§3, §4.4)

Modelled from the spec: the scheduler implementation is not in the
repository sample. -/

/-- A step record: hierarchical id, the instance it is a child of,
post-substitution title/description, status, ordinary `Needs` dependency
references, and an optional fan-in marker
(`waits-for-all-children-of <parent-ref>`). -/
structure Step where
  id : String
  parent : String
  title : String
  descr : String
  status : StepStatus
  needs : List String
  fanIn : Option String
deriving DecidableEq, Repr

/-- Status of the step with the given id, if recorded. -/
def stepStatus (steps : List Step) (i : String) : Option StepStatus :=
  (steps.find? (fun s => s.id == i)).map (fun s => s.status)

/-- All ordinary `Needs` dependencies of `s` have status `done`. -/
def needsDone (steps : List Step) (s : Step) : Bool :=
  s.needs.all (fun n => stepStatus steps n == some .done)

/-- The steps currently known to be children of the parent reference `p`. -/
def childrenOf (steps : List Step) (p : String) : List Step :=
  steps.filter (fun t => t.parent == p)

/-- The fan-in marker of `s`, if present, is satisfied: every step currently
known to be a child of the referenced parent has status `done`.  Re-evaluated
against the current child set on every query (growing barrier). -/
def fanInSatisfied (steps : List Step) (s : Step) : Bool :=
  match s.fanIn with
  | none => true
  | some p => (childrenOf steps p).all (fun t => t.status == .done)

/-- Modelled from the spec (§4.4, the scheduler is not in the repository
sample): `readySteps(instanceID)` is the set of steps of that instance with
status `blocked` whose ordinary `Needs` are all `done` and whose fan-in
marker, if any, is satisfied. -/
def readySteps (steps : List Step) (instanceID : String) : List Step :=
  steps.filter (fun s =>
    s.parent == instanceID && s.status == .blocked &&
      needsDone steps s && fanInSatisfied steps s)

/-! ## Template catalog (§4.1)

Modelled from the spec: the catalog implementation is not in the repository
sample. -/

/-- A child-step template: title/description patterns, declared dependencies
as sibling step positions, and an optional fan-in marker. -/
structure StepTemplate where
  titleP : Text
  descrP : Text
  needs : List Nat
  fanIn : Option String
deriving DecidableEq, Repr

/-- A workflow template (proto).  Immutable once loaded. -/
structure Proto where
  id : String
  titleP : Text
  descrP : Text
  labels : List String
  steps : List StepTemplate
  typeTag : String
deriving DecidableEq, Repr

/-- A catalog source: an ordered collection of template records. -/
abbrev Source := List Proto

/-- Does a source define the template id `i`? -/
def defines (src : Source) (i : String) : Bool :=
  src.any (fun p => p.id == i)

/-- Merge one source over an accumulated view for id `i`: a record with a
matching id fully replaces whatever an earlier source contributed. -/
def loadSrc (acc : Option Proto) (src : Source) (i : String) : Option Proto :=
  match src with
  | [] => acc
  | p :: rest => loadSrc (if p.id == i then some p else acc) rest i

/-- Fold the sources in ascending precedence over an accumulated view. -/
def loadFrom (acc : Option Proto) (sources : List Source) (i : String) :
    Option Proto :=
  match sources with
  | [] => acc
  | src :: rest => loadFrom (loadSrc acc src i) rest i

/-- Modelled from the spec (§4.1, the catalog is not in the repository
sample): `load(sources)` consults sources in ascending precedence; a later
source's template with the same id fully replaces an earlier one
(whole-record replacement). -/
def load (sources : List Source) (i : String) : Option Proto :=
  loadFrom none sources i

/-! ## `gt mq migrate` (from the `cmd` sample, `runMqMigrate`) -/

/-- MR fields parsed out of a bead description by `beads.ParseMRFields`. -/
structure MRFields where
  branch : String
  target : String
  sourceIssue : String
  worker : String
deriving DecidableEq, Repr

/-- A beads issue, with the fields `runMqMigrate` reads. -/
structure Issue where
  id : String
  title : String
  issueType : String
  status : String
  priority : Int
deriving DecidableEq, Repr

/-- An mrqueue entry as built by `runMqMigrate`. -/
structure MR where
  id : String
  branch : String
  target : String
  sourceIssue : String
  worker : String
  rig : String
  title : String
  priority : Int
deriving DecidableEq, Repr

/-- Worker extraction (lines 123-133 of the `runMqMigrate` sample): take the
parsed worker, else, when the branch starts with `polecat/`, the second
component of the branch.  (`strings.SplitN(branch, "/", 3)` agrees with the
unbounded split on components 0 and 1, which are all that is read.) -/
def extractWorker (f : MRFields) : String :=
  if f.worker ≠ "" then f.worker
  else if "polecat/".isPrefixOf f.branch then
    let parts := f.branch.splitOn "/"
    if 2 ≤ parts.length then parts.getD 1 "" else ""
  else ""

/-- The mrqueue entry `runMqMigrate` submits for an issue with parsed MR
fields (lines 141-150 of the sample). -/
def mkEntry (issue : Issue) (f : MRFields) (rigName : String) : MR :=
  { id := issue.id
    branch := f.branch
    target := f.target
    sourceIssue := f.sourceIssue
    worker := extractWorker f
    rig := rigName
    title := issue.title
    priority := issue.priority }

/-- `runMqMigrate`, embedded as the sequence of `mq.Submit` calls it makes:
filter all issues to open merge-requests, drop those whose id is already in
the queue, and for each remaining issue with parseable MR fields submit an
entry — unless `--dry-run` is set, in which case every issue is only
printed.  `parse` abstracts `beads.ParseMRFields`. -/
def runMqMigrate (parse : Issue → Option MRFields) (dryRun : Bool)
    (existing : List MR) (allIssues : List Issue) (rigName : String) :
    List MR :=
  let issues := allIssues.filter
    (fun i => i.issueType == "merge-request" && i.status == "open")
  let toMigrate := issues.filter
    (fun i => !(existing.any (fun m => m.id == i.id)))
  toMigrate.filterMap (fun issue =>
    match parse issue with
    | none => none
    | some f => if dryRun then none else some (mkEntry issue f rigName))

/-- The mrqueue state after `runMqMigrate`: the previous entries plus the
submitted ones. -/
def mqStateAfter (parse : Issue → Option MRFields) (dryRun : Bool)
    (existing : List MR) (allIssues : List Issue) (rigName : String) :
    List MR :=
  existing ++ runMqMigrate parse dryRun existing allIssues rigName

/-! ## Acyclicity validation (§4.4 `validateAcyclic`)

Modelled from the spec: the scheduler implementation is not in the
repository sample. -/

/-- A dependency edge `(a, b)`: step `a` needs step `b`. -/
abbrev Edge := String × String

/-- `x` is eliminable among the remaining nodes `R`: no need of `x` points
back into `R`. -/
def removable (edges : List Edge) (R : List String) (x : String) : Bool :=
  edges.all (fun e => !(e.1 == x) || !(decide (e.2 ∈ R)))

/-- Fueled elimination: repeatedly discard every node none of whose needs
lies among the remaining nodes; the edge set is acyclic exactly when the
node set empties. -/
def kahn (edges : List Edge) : Nat → List String → Bool
  | _, [] => true
  | 0, _ :: _ => false
  | fuel + 1, x :: xs =>
    let R := x :: xs
    if R.any (fun y => removable edges R y) then
      kahn edges fuel (R.filter (fun y => !(removable edges R y)))
    else false

/-- Modelled from the spec (§4.4, the scheduler is not in the repository
sample): `validateAcyclic(edges)` — cycle detection over an edge set,
used at bond time; rejects any edge set that is not a DAG over the given
node set. -/
def validateAcyclic (nodes : List String) (edges : List Edge) : Bool :=
  kahn edges nodes.length nodes

/-- `L` is a topological ordering for `edges`: every need of each listed
node points strictly earlier in the list. -/
def isTopo (edges : List Edge) : List String → Bool
  | [] => true
  | x :: rest => removable edges (x :: rest) x && isTopo edges rest

/-! ## Instances, stores, bonder and lifecycle manager (§3, §4.3, §4.5)

Modelled from the spec: bonder and lifecycle manager are not in the
repository sample.  Creation timestamps are elided; no claim concerns
them. -/

/-- A live instance (mol or wisp). -/
structure Instance where
  id : String
  kind : Durability
  status : InstStatus
  title : String
  descr : String
  bindings : Bindings
  parent : Option String
deriving DecidableEq, Repr

/-- A permanent completion record, created only by squash. -/
structure Digest where
  instId : String
  summary : String
deriving DecidableEq, Repr

/-- One persistence store (instance and step records). -/
structure Store where
  instances : List Instance
  steps : List Step
deriving DecidableEq, Repr

/-- Persistent engine state: the durable store (`.beads/`), the ephemeral
store (`.beads-wisp/`), and the digests (always durable). -/
structure EngineState where
  durable : Store
  ephemeral : Store
  digests : List Digest
deriving DecidableEq, Repr

/-- The store for a durability kind. -/
def storeOf (st : EngineState) : Durability → Store
  | .durable => st.durable
  | .ephemeral => st.ephemeral

/-- Replace the store for a durability kind. -/
def setStore (st : EngineState) : Durability → Store → EngineState
  | .durable, s => { st with durable := s }
  | .ephemeral, s => { st with ephemeral := s }

/-- Find an instance record by id, in whichever store holds it. -/
def findInst (st : EngineState) (i : String) : Option Instance :=
  (st.durable.instances ++ st.ephemeral.instances).find? (fun inst => inst.id == i)

/-- A status is terminal when it is `squashed` or `burned`. -/
def terminal : InstStatus → Bool
  | .active => false
  | .squashed => true
  | .burned => true

/-- Is there a non-terminal instance with this id (the `DuplicateInstance`
condition of §4.3 step 2)? -/
def nonTerminalExists (st : EngineState) (iid : String) : Bool :=
  match findInst st iid with
  | none => false
  | some prev => !(terminal prev.status)

/-- Hierarchical step id `<instance-id>.<ordinal>` for the step at
position `j` (ordinals start at 1). -/
def stepId (instId : String) (j : Nat) : String :=
  instId ++ "." ++ toString (j + 1)

/-- The instance id: the caller-supplied `ref` if given, else the
template id (§4.3 step 2). -/
def instIdOf (ref : Option String) (templateID : String) : String :=
  ref.getD templateID

/-- Build the step records for the child-step templates starting at
position `j`: substituted title/description, translated `Needs` and fan-in,
status `blocked` (§4.3 step 4). -/
def buildSteps (b : Bindings) (instId : String) :
    Nat → List StepTemplate → Except EngineError (List Step)
  | _, [] => .ok []
  | j, t :: rest =>
    match resolve t.titleP b with
    | .error e => .error e
    | .ok title =>
      match resolve t.descrP b with
      | .error e => .error e
      | .ok descr =>
        match buildSteps b instId (j + 1) rest with
        | .error e => .error e
        | .ok others =>
          .ok ({ id := stepId instId j
                 parent := instId
                 title := title
                 descr := descr
                 status := .blocked
                 needs := t.needs.map (fun k => stepId instId k)
                 fanIn := t.fanIn } :: others)

/-- The step ids a template's child steps will receive, starting at
position `j`. -/
def idsFrom (instId : String) (j : Nat) : List StepTemplate → List String
  | [] => []
  | _ :: rest => stepId instId j :: idsFrom instId (j + 1) rest

/-- The dependency edges a template's child steps declare, translated to
concrete step ids, starting at position `j`. -/
def edgesFrom (instId : String) (j : Nat) : List StepTemplate → List Edge
  | [] => []
  | t :: rest =>
    t.needs.map (fun k => (stepId instId j, stepId instId k)) ++
      edgesFrom instId (j + 1) rest

/-- The steps of one instance tree held in a store. -/
def instSteps (store : Store) (instId : String) : List Step :=
  store.steps.filter (fun s => s.parent == instId)

/-- The step ids of one instance tree held in a store. -/
def instNodes (store : Store) (instId : String) : List String :=
  (instSteps store instId).map (fun s => s.id)

/-- The `Needs` edges of one instance tree held in a store. -/
def instEdges (store : Store) (instId : String) : List Edge :=
  ((instSteps store instId).map (fun s => s.needs.map (fun n => (s.id, n)))).flatten

/-- The node set checked at bond time: the proposed new step ids merged
with the existing step ids of the same instance. -/
def mergedNodes (st : EngineState) (kind : Durability) (instId : String)
    (ts : List StepTemplate) : List String :=
  idsFrom instId 0 ts ++ instNodes (storeOf st kind) instId

/-- The edge set checked at bond time: the proposed edges merged with the
existing edges of the same instance (§4.4 `validateAcyclic` use). -/
def mergedEdges (st : EngineState) (kind : Durability) (instId : String)
    (ts : List StepTemplate) : List Edge :=
  edgesFrom instId 0 ts ++ instEdges (storeOf st kind) instId

/-- Add a freshly bonded instance and its steps to a store. -/
def addToStore (store : Store) (inst : Instance) (steps : List Step) : Store :=
  { instances := inst :: store.instances
    steps := steps ++ store.steps }

/-- Modelled from the spec (§4.3, the bonder is not in the repository
sample): `bond(templateID, bindings, kind, ref?, parent?)` — resolve the
template, check for a duplicate non-terminal instance, substitute
variables, build the step set, reject cycles, then persist; every
validation failure happens before the single persistent write. -/
def bond (cat : String → Option Proto) (templateID : String) (b : Bindings)
    (kind : Durability) (ref : Option String) (parent : Option String)
    (st : EngineState) : Except EngineError Instance × EngineState :=
  match cat templateID with
  | none => (.error .notFound, st)
  | some p =>
    if p.labels.contains "template" = false then (.error .invalidTemplate, st)
    else if nonTerminalExists st (instIdOf ref templateID) then
      (.error .duplicateInstance, st)
    else
      match resolve p.titleP b with
      | .error e => (.error e, st)
      | .ok title =>
        match resolve p.descrP b with
        | .error e => (.error e, st)
        | .ok descr =>
          match buildSteps b (instIdOf ref templateID) 0 p.steps with
          | .error e => (.error e, st)
          | .ok newSteps =>
            if validateAcyclic
                (mergedNodes st kind (instIdOf ref templateID) p.steps)
                (mergedEdges st kind (instIdOf ref templateID) p.steps) = false then
              (.error .cycleError, st)
            else
              (.ok { id := instIdOf ref templateID
                     kind := kind
                     status := .active
                     title := title
                     descr := descr
                     bindings := b
                     parent := parent },
               setStore st kind (addToStore (storeOf st kind)
                 { id := instIdOf ref templateID
                   kind := kind
                   status := .active
                   title := title
                   descr := descr
                   bindings := b
                   parent := parent } newSteps))

/-- Set the status of the instance record with the given id. -/
def setInstStatus (l : List Instance) (iid : String) (s : InstStatus) :
    List Instance :=
  match l with
  | [] => []
  | a :: rest =>
    (if a.id == iid then { a with status := s } else a) ::
      setInstStatus rest iid s

/-- Apply a terminal status update to the instance record, wherever it is
held. -/
def markStatus (st : EngineState) (iid : String) (s : InstStatus) : EngineState :=
  { st with
    durable := { st.durable with
      instances := setInstStatus st.durable.instances iid s }
    ephemeral := { st.ephemeral with
      instances := setInstStatus st.ephemeral.instances iid s } }

/-- Delete the step records of one instance tree from a store. -/
def dropSteps (store : Store) (iid : String) : Store :=
  { store with steps := store.steps.filter (fun s => !(s.parent == iid)) }

/-- Modelled from the spec (§4.5, the lifecycle manager is not in the
repository sample): `squash(instanceID, summary)` — hard
`AlreadyFinalized` error on a terminal instance; otherwise write the
Digest to durable storage and apply the terminal status update, deleting
the step records from the ephemeral store when the instance is a wisp and
retaining them when it is a mol. -/
def squash (iid summary : String) (st : EngineState) :
    Except EngineError Digest × EngineState :=
  match findInst st iid with
  | none => (.error .notFound, st)
  | some inst =>
    if terminal inst.status then (.error .alreadyFinalized, st)
    else
      match inst.kind with
      | .durable =>
        (.ok { instId := iid, summary := summary },
         { markStatus st iid .squashed with
             digests := { instId := iid, summary := summary } :: st.digests })
      | .ephemeral =>
        (.ok { instId := iid, summary := summary },
         { durable := (markStatus st iid .squashed).durable
           ephemeral := dropSteps (markStatus st iid .squashed).ephemeral iid
           digests := { instId := iid, summary := summary } :: st.digests })

/-- Delete an instance and all of its step records. -/
def removeInst (st : EngineState) (iid : String) : EngineState :=
  { st with
    durable :=
      { instances := st.durable.instances.filter (fun i2 => !(i2.id == iid))
        steps := st.durable.steps.filter (fun s => !(s.parent == iid)) }
    ephemeral :=
      { instances := st.ephemeral.instances.filter (fun i2 => !(i2.id == iid))
        steps := st.ephemeral.steps.filter (fun s => !(s.parent == iid)) } }

/-- Modelled from the spec (§4.5, the lifecycle manager is not in the
repository sample): `burn(instanceID, reason)` — hard `AlreadyFinalized`
error on a terminal instance, `NotFound` when absent; otherwise delete the
instance and all its step records.  No Digest is created; the reason is
advisory output only. -/
def burn (iid reason : String) (st : EngineState) :
    Except EngineError Unit × EngineState :=
  match findInst st iid with
  | none => (.error .notFound, st)
  | some inst =>
    if terminal inst.status then (.error .alreadyFinalized, st)
    else (.ok (), removeInst st iid)

/-! ## Concrete fixtures used to exhibit satisfiable hypotheses -/

/-- The empty engine state. -/
def emptyState : EngineState :=
  { durable := { instances := [], steps := [] }
    ephemeral := { instances := [], steps := [] }
    digests := [] }

/-- A catalog with no templates. -/
def catEmpty : String → Option Proto := fun _ => none

/-- A template whose two steps need each other (a dependency cycle). -/
def protoCyc : Proto :=
  { id := "mol-cyc"
    titleP := []
    descrP := []
    labels := ["template"]
    steps :=
      [ { titleP := [], descrP := [], needs := [1], fanIn := none }
      , { titleP := [], descrP := [], needs := [0], fanIn := none } ]
    typeTag := "epic" }

/-- A catalog holding only `protoCyc`. -/
def catCyc : String → Option Proto :=
  fun i => if i == "mol-cyc" then some protoCyc else none

/-- A two-step linear template (step 2 needs step 1). -/
def protoLin : Proto :=
  { id := "mol-lin"
    titleP := []
    descrP := []
    labels := ["template"]
    steps :=
      [ { titleP := [], descrP := [], needs := [], fanIn := none }
      , { titleP := [], descrP := [], needs := [0], fanIn := none } ]
    typeTag := "epic" }

/-- A catalog holding only `protoLin`. -/
def catLin : String → Option Proto :=
  fun i => if i == "mol-lin" then some protoLin else none

/-- A blocked step with no needs and no fan-in marker. -/
def stepFree : Step :=
  { id := "mol-a.1"
    parent := "mol-a"
    title := "Design"
    descr := "d"
    status := .blocked
    needs := []
    fanIn := none }

/-- A durable instance already squashed. -/
def instSq : Instance :=
  { id := "mol-b"
    kind := .durable
    status := .squashed
    title := "t"
    descr := "d"
    bindings := []
    parent := none }

/-- A state holding only `instSq`. -/
def stateSq : EngineState :=
  { durable := { instances := [instSq], steps := [] }
    ephemeral := { instances := [], steps := [] }
    digests := [] }

/-- An active ephemeral instance (wisp). -/
def instWisp : Instance :=
  { id := "wisp-c"
    kind := .ephemeral
    status := .active
    title := "t"
    descr := "d"
    bindings := []
    parent := none }

/-- A step record of the wisp `instWisp`. -/
def stepWisp : Step :=
  { id := "wisp-c.1"
    parent := "wisp-c"
    title := "s"
    descr := "d"
    status := .blocked
    needs := []
    fanIn := none }

/-- A state holding the wisp and its one step. -/
def stateWisp : EngineState :=
  { durable := { instances := [], steps := [] }
    ephemeral := { instances := [instWisp], steps := [stepWisp] }
    digests := [] }

/-- The state after squashing the wisp: step records evaporated, status
updated, digest persisted. -/
def stateWispSq : EngineState :=
  { durable := { instances := [], steps := [] }
    ephemeral :=
      { instances := [{ instWisp with status := .squashed }], steps := [] }
    digests := [{ instId := "wisp-c", summary := "ok" }] }

/-- Template id `X` as defined by source `A`. -/
def protoXA : Proto :=
  { id := "X", titleP := [Token.lit "A"], descrP := [], labels := ["template"]
    steps := [], typeTag := "epic" }

/-- Template id `X` as defined by source `B`. -/
def protoXB : Proto :=
  { id := "X", titleP := [Token.lit "B"], descrP := [], labels := ["template"]
    steps := [], typeTag := "epic" }

/-- MR fields with an explicit worker. -/
def fieldsAce : MRFields :=
  { branch := "polecat/ace/gt-7", target := "main", sourceIssue := "gt-7"
    worker := "ace" }

/-- An open merge-request bead. -/
def issueAce : Issue :=
  { id := "gt-7", title := "Fix parser", issueType := "merge-request"
    status := "open", priority := 1 }

/-- A parser that extracts `fieldsAce` from every bead. -/
def parseAce : Issue → Option MRFields := fun _ => some fieldsAce

theorem removable_iff {edges : List Edge} {R : List String} {x : String} :
    removable edges R x = true ↔ ∀ e ∈ edges, e.1 = x → ¬ e.2 ∈ R := by
  simp [removable, List.all_eq_true, Decidable.imp_iff_not_or]

theorem removable_mono {edges : List Edge} {R S : List String} {x : String}
    (hsub : ∀ z ∈ S, z ∈ R) (h : removable edges R x = true) :
    removable edges S x = true := by
  rw [removable_iff] at h ⊢
  intro e he hx hmem
  exact h e he hx (hsub _ hmem)

theorem isTopo_filter {edges : List Edge} (p : String → Bool) :
    ∀ {L : List String}, isTopo edges L = true →
      isTopo edges (L.filter p) = true := by
  intro L
  induction L with
  | nil => intro _; rfl
  | cons x rest ih =>
    intro h
    rw [isTopo, Bool.and_eq_true] at h
    by_cases hp : p x = true
    · rw [List.filter_cons_of_pos hp, isTopo, Bool.and_eq_true]
      refine ⟨removable_mono ?_ h.1, ih h.2⟩
      intro z hz
      rcases List.mem_cons.mp hz with hz | hz
      · exact hz ▸ List.mem_cons_self _ _
      · exact List.mem_cons_of_mem _ (List.mem_of_mem_filter hz)
    · rw [List.filter_cons_of_neg (by simpa using hp)]
      exact ih h.2

theorem isTopo_append {edges : List Edge} (R : List String) :
    ∀ (P L : List String), (∀ x ∈ P, removable edges R x = true) →
      (∀ y ∈ P ++ L, y ∈ R) → isTopo edges L = true →
      isTopo edges (P ++ L) = true := by
  intro P
  induction P with
  | nil => intro L _ _ h; simpa using h
  | cons x P ih =>
    intro L hrem hsub h
    rw [List.cons_append, isTopo, Bool.and_eq_true]
    constructor
    · refine removable_mono ?_ (hrem x (List.mem_cons_self _ _))
      intro z hz
      exact hsub z (by simpa using List.mem_cons.mp hz)
    · exact ih L (fun y hy => hrem y (List.mem_cons_of_mem _ hy))
        (fun y hy => hsub y (List.mem_cons_of_mem _ hy)) h

theorem kahn_sound {edges : List Edge} :
    ∀ (fuel : Nat) (R : List String), kahn edges fuel R = true →
      ∃ L : List String, (∀ x, x ∈ L ↔ x ∈ R) ∧ isTopo edges L = true := by
  intro fuel
  induction fuel with
  | zero =>
    intro R h
    cases R with
    | nil => exact ⟨[], by simp, rfl⟩
    | cons x xs => simp [kahn] at h
  | succ fuel ih =>
    intro R h
    cases R with
    | nil => exact ⟨[], by simp, rfl⟩
    | cons x xs =>
      rw [kahn] at h
      set R := x :: xs with hR
      by_cases hany : R.any (fun y => removable edges R y) = true
      · rw [if_pos hany] at h
        obtain ⟨L', hmem, htopo⟩ :=
          ih (R.filter (fun y => !(removable edges R y))) h
        refine ⟨R.filter (fun y => removable edges R y) ++ L', ?_, ?_⟩
        · intro z
          constructor
          · intro hz
            rcases List.mem_append.mp hz with hz | hz
            · exact List.mem_of_mem_filter hz
            · exact List.mem_of_mem_filter ((hmem z).mp hz)
          · intro hz
            by_cases hrem : removable edges R z = true
            · exact List.mem_append.mpr (Or.inl (List.mem_filter.mpr ⟨hz, hrem⟩))
            · refine List.mem_append.mpr (Or.inr ((hmem z).mpr ?_))
              exact List.mem_filter.mpr ⟨hz, by simpa using hrem⟩
        · refine isTopo_append R _ L' ?_ ?_ htopo
          · intro y hy
            exact (List.mem_filter.mp hy).2
          · intro y hy
            rcases List.mem_append.mp hy with hy | hy
            · exact List.mem_of_mem_filter hy
            · exact List.mem_of_mem_filter ((hmem y).mp hy)
      · rw [if_neg hany] at h
        exact absurd h (by simp)

theorem length_filter_lt {p : String → Bool} {l : List String} {a : String}
    (ha : a ∈ l) (hpa : p a = false) : (l.filter p).length < l.length := by
  induction l with
  | nil => cases ha
  | cons x xs ih =>
    rcases List.mem_cons.mp ha with rfl | ha
    · rw [List.filter_cons_of_neg (by simp [hpa])]
      exact Nat.lt_succ_of_le (List.length_filter_le _ _)
    · by_cases hx : p x = true
      · rw [List.filter_cons_of_pos hx]
        exact Nat.succ_lt_succ (ih ha)
      · rw [List.filter_cons_of_neg (by simpa using hx)]
        exact Nat.lt_succ_of_lt (ih ha)

theorem kahn_complete {edges : List Edge} :
    ∀ (fuel : Nat) (R L : List String), (∀ x, x ∈ L ↔ x ∈ R) →
      isTopo edges L = true → R.length ≤ fuel →
      kahn edges fuel R = true := by
  intro fuel
  induction fuel with
  | zero =>
    intro R L _ _ hlen
    cases R with
    | nil => rfl
    | cons x xs => simp at hlen
  | succ fuel ih =>
    intro R L hmem htopo hlen
    cases hRc : R with
    | nil => rfl
    | cons x xs =>
      subst hRc
      rw [kahn]
      cases hLc : L with
      | nil =>
        exact absurd ((hmem x).mpr (List.mem_cons_self _ _)) (by simp [hLc])
      | cons y L2 =>
        subst hLc
        rw [isTopo, Bool.and_eq_true] at htopo
        have hyR : y ∈ x :: xs := (hmem y).mp (List.mem_cons_self _ _)
        have hyrem : removable edges (x :: xs) y = true := by
          refine removable_mono ?_ htopo.1
          intro z hz
          exact (hmem z).mpr hz
        have hany : (x :: xs).any (fun z => removable edges (x :: xs) z) = true :=
          List.any_eq_true.mpr ⟨y, hyR, hyrem⟩
        rw [if_pos hany]
        set keep := (x :: xs).filter (fun z => !(removable edges (x :: xs) z))
          with hkeep
        refine ih keep ((y :: L2).filter (fun z => decide (z ∈ keep))) ?_ ?_ ?_
        · intro z
          rw [List.mem_filter]
          constructor
          · intro hz
            exact of_decide_eq_true hz.2
          · intro hz
            refine ⟨(hmem z).mpr (List.mem_of_mem_filter hz), decide_eq_true hz⟩
        · exact isTopo_filter _
            (by rw [isTopo, Bool.and_eq_true]; exact htopo)
        · have hlt : keep.length < (x :: xs).length :=
            length_filter_lt hyR (by simp [hyrem])
          omega

theorem validateAcyclic_iff (nodes : List String) (edges : List Edge) :
    validateAcyclic nodes edges = true ↔
      ∃ L : List String, (∀ x, x ∈ L ↔ x ∈ nodes) ∧ isTopo edges L = true := by
  constructor
  · exact kahn_sound nodes.length nodes
  · rintro ⟨L, h1, h2⟩
    exact kahn_complete nodes.length nodes L h1 h2 le_rfl

/-! ## Scheduler soundness (C1) -/

theorem fanInSatisfied_some {steps : List Step} {s : Step} {p : String}
    (hp : s.fanIn = some p) :
    fanInSatisfied steps s =
      (childrenOf steps p).all (fun t => t.status == .done) := by
  unfold fanInSatisfied
  rw [hp]

/-- C1: every step returned by `readySteps` has all of its ordinary `Needs`
dependencies with status `done`, and, when it carries a fan-in marker, every
step currently known to be a child of the referenced parent has status
`done`; no step with an undone dependency or unsatisfied barrier is ever
returned. -/
theorem readySteps_sound (steps : List Step) (iid : String) (s : Step)
    (h : s ∈ readySteps steps iid) :
    (∀ n ∈ s.needs, stepStatus steps n = some .done) ∧
    (∀ p, s.fanIn = some p → ∀ t ∈ steps, t.parent = p → t.status = .done) := by
  unfold readySteps at h
  rw [List.mem_filter] at h
  obtain ⟨hmem, hb⟩ := h
  rw [Bool.and_eq_true, Bool.and_eq_true, Bool.and_eq_true] at hb
  obtain ⟨⟨⟨_, _⟩, hnd⟩, hfi⟩ := hb
  constructor
  · intro n hn
    unfold needsDone at hnd
    exact eq_of_beq (List.all_eq_true.mp hnd n hn)
  · intro p hp t ht hpt
    rw [fanInSatisfied_some hp] at hfi
    refine eq_of_beq (List.all_eq_true.mp hfi t ?_)
    unfold childrenOf
    exact List.mem_filter.mpr ⟨ht, by rw [hpt]; exact beq_self_eq_true p⟩

/-- Witness for C1: a blocked step with no needs and no marker is returned
and satisfies the soundness conditions. -/
theorem readySteps_sound_witness :
    stepFree ∈ readySteps [stepFree] "mol-a" ∧
    ((∀ n ∈ stepFree.needs, stepStatus [stepFree] n = some .done) ∧
     (∀ p, stepFree.fanIn = some p →
        ∀ t ∈ [stepFree], t.parent = p → t.status = .done)) :=
  ⟨by decide, readySteps_sound [stepFree] "mol-a" stepFree (by decide)⟩

/-! ## Catalog precedence (C6) -/

theorem loadSrc_no_def {i : String} :
    ∀ (src : Source) (acc : Option Proto), defines src i = false →
      loadSrc acc src i = acc := by
  intro src
  induction src with
  | nil => intro acc _; rfl
  | cons p rest ih =>
    intro acc h
    rw [defines, List.any_cons, Bool.or_eq_false_iff] at h
    rw [loadSrc, if_neg (by simp [h.1])]
    exact ih acc h.2

theorem loadSrc_def_irrel {i : String} :
    ∀ (src : Source) (acc : Option Proto), defines src i = true →
      loadSrc acc src i = loadSrc none src i := by
  intro src
  induction src with
  | nil => intro acc h; simp [defines] at h
  | cons p rest ih =>
    intro acc h
    by_cases hp : (p.id == i) = true
    · rw [loadSrc, loadSrc, if_pos hp, if_pos hp]
    · have hp' : (p.id == i) = false := by simpa using hp
      have hrest : defines rest i = true := by
        rw [defines, List.any_cons, hp', Bool.false_or] at h
        rw [defines]
        exact h
      rw [loadSrc, loadSrc, if_neg (by simp [hp']), if_neg (by simp [hp']),
        ih acc hrest, ih none hrest]

theorem loadFrom_append {i : String} :
    ∀ (l1 l2 : List Source) (acc : Option Proto),
      loadFrom acc (l1 ++ l2) i = loadFrom (loadFrom acc l1 i) l2 i := by
  intro l1
  induction l1 with
  | nil => intro l2 acc; rfl
  | cons s rest ih =>
    intro l2 acc
    rw [List.cons_append, loadFrom, loadFrom]
    exact ih l2 (loadSrc acc s i)

theorem loadFrom_no_def {i : String} :
    ∀ (post : List Source) (acc : Option Proto),
      (∀ s ∈ post, defines s i = false) → loadFrom acc post i = acc := by
  intro post
  induction post with
  | nil => intro acc _; rfl
  | cons s rest ih =>
    intro acc h
    rw [loadFrom, loadSrc_no_def s acc (h s (List.mem_cons_self _ _))]
    exact ih acc (fun s2 hs2 => h s2 (List.mem_cons_of_mem _ hs2))

/-- C6: the merged catalog view for an id comes wholly from the latest
(highest-precedence) source defining that id — whole-record replacement;
the sources before it contribute nothing, so the result depends only on
source order. -/
theorem load_latest_source_wins (pre post : List Source) (src : Source)
    (i : String) (hpost : ∀ s ∈ post, defines s i = false)
    (hsrc : defines src i = true) :
    load (pre ++ src :: post) i = load [src] i := by
  unfold load
  rw [loadFrom_append]
  rw [show loadFrom (loadFrom none pre i) (src :: post) i =
      loadFrom (loadSrc (loadFrom none pre i) src i) post i from rfl]
  rw [loadFrom_no_def post _ hpost]
  rw [loadSrc_def_irrel src _ hsrc]
  rfl

/-- Witness for C6: when sources `A` and `B` both define template id `X`,
loading `[A, B]` yields B's whole record and loading `[B, A]` yields A's. -/
theorem load_latest_source_wins_witness :
    load [[protoXA], [protoXB]] "X" = some protoXB ∧
    load [[protoXB], [protoXA]] "X" = some protoXA := by
  constructor
  · rw [show ([[protoXA], [protoXB]] : List Source) =
        [[protoXA]] ++ [protoXB] :: [] from rfl]
    rw [load_latest_source_wins [[protoXA]] [] [protoXB] "X"
      (by intro s hs; cases hs) (by decide)]
    decide
  · rw [show ([[protoXB], [protoXA]] : List Source) =
        [[protoXB]] ++ [protoXA] :: [] from rfl]
    rw [load_latest_source_wins [[protoXB]] [] [protoXA] "X"
      (by intro s hs; cases hs) (by decide)]
    decide

/-! ## Variable substitution (C7) -/

theorem resolve_congr :
    ∀ (text : Text) (b b2 : Bindings),
      (∀ n ∈ placeholders text, lookupVar b2 n = lookupVar b n) →
      resolve text b2 = resolve text b := by
  intro text
  induction text with
  | nil => intro b b2 _; rfl
  | cons tok rest ih =>
    intro b b2 hagree
    cases tok with
    | lit s =>
      simp only [resolve]
      rw [ih b b2 (fun n hn => hagree n hn)]
    | var n =>
      have hn : lookupVar b2 n = lookupVar b n :=
        hagree n (List.mem_cons_self _ _)
      simp only [resolve]
      rw [hn]
      cases hl : lookupVar b n with
      | none => rfl
      | some v =>
        rw [ih b b2 (fun m hm => hagree m (List.mem_cons_of_mem _ hm))]

theorem resolve_ok_of_bound :
    ∀ (text : Text) (b : Bindings),
      (∀ n ∈ placeholders text, (lookupVar b n).isSome = true) →
      ∃ s, resolve text b = .ok s := by
  intro text
  induction text with
  | nil => intro b _; exact ⟨"", rfl⟩
  | cons tok rest ih =>
    intro b hb
    cases tok with
    | lit s =>
      obtain ⟨r, hr⟩ := ih b (fun n hn => hb n hn)
      exact ⟨s ++ r, by simp only [resolve]; rw [hr]; rfl⟩
    | var n =>
      obtain ⟨v, hv⟩ :=
        Option.isSome_iff_exists.mp (hb n (List.mem_cons_self _ _))
      obtain ⟨r, hr⟩ := ih b (fun m hm => hb m (List.mem_cons_of_mem _ hm))
      exact ⟨v ++ r, by simp only [resolve]; rw [hv, hr]; rfl⟩

theorem resolve_missing :
    ∀ (text : Text) (b : Bindings),
      (∃ n, n ∈ placeholders text ∧ lookupVar b n = none) →
      ∃ m, m ∈ placeholders text ∧ lookupVar b m = none ∧
        resolve text b = .error (.missingVariable m) := by
  intro text
  induction text with
  | nil => rintro b ⟨n, hn, _⟩; exact absurd hn (by simp [placeholders])
  | cons tok rest ih =>
    rintro b ⟨n, hn, hnone⟩
    cases tok with
    | lit s =>
      obtain ⟨m, hm, hmn, hres⟩ := ih b ⟨n, hn, hnone⟩
      exact ⟨m, hm, hmn, by simp only [resolve]; rw [hres]; rfl⟩
    | var n2 =>
      cases hl : lookupVar b n2 with
      | none =>
        exact ⟨n2, List.mem_cons_self _ _, hl, by simp only [resolve]; rw [hl]⟩
      | some v =>
        have hn' : n ∈ placeholders rest := by
          simp only [placeholders] at hn
          rcases List.mem_cons.mp hn with rfl | h2
          · rw [hl] at hnone; exact absurd hnone (by simp)
          · exact h2
        obtain ⟨m, hm, hmn, hres⟩ := ih b ⟨n, hn', hnone⟩
        exact ⟨m, List.mem_cons_of_mem _ hm, hmn,
          by simp only [resolve]; rw [hl, hres]; rfl⟩

/-- C7: `resolve(text, bindings)` fails with `MissingVariable` naming an
unbound placeholder whenever some placeholder of the text is unbound,
succeeds whenever every placeholder is bound, and never consults binding
entries for names that do not appear in the text (so unreferenced bindings
are ignored without error). -/
theorem resolve_spec (text : Text) (b : Bindings) :
    ((∃ n, n ∈ placeholders text ∧ lookupVar b n = none) →
      ∃ m, m ∈ placeholders text ∧ lookupVar b m = none ∧
        resolve text b = .error (.missingVariable m)) ∧
    ((∀ n ∈ placeholders text, (lookupVar b n).isSome = true) →
      ∃ s, resolve text b = .ok s) ∧
    (∀ b2 : Bindings, (∀ n ∈ placeholders text, lookupVar b2 n = lookupVar b n) →
      resolve text b2 = resolve text b) :=
  ⟨resolve_missing text b, resolve_ok_of_bound text b,
    fun b2 h => resolve_congr text b b2 h⟩

/-- Witness for C7: an unbound placeholder makes `resolve` fail naming it;
a fully bound text resolves. -/
theorem resolve_spec_witness :
    (∃ m, m ∈ placeholders [Token.var "x"] ∧ lookupVar [] m = none ∧
      resolve [Token.var "x"] [] = .error (.missingVariable m)) ∧
    (∃ s, resolve [Token.lit "Engineer in Box: ", Token.var "feature_name"]
      [("feature_name", "user auth")] = .ok s) := by
  constructor
  · exact (resolve_spec [Token.var "x"] []).1
      ⟨"x", by simp [placeholders], rfl⟩
  · refine (resolve_spec _ _).2.1 ?_
    intro n hn
    simp only [placeholders, List.mem_singleton] at hn
    subst hn
    rfl

/-! ## `gt mq migrate` (C8, C9) -/

/-- C8: with `--dry-run` set, `runMqMigrate` never calls `mq.Submit`, and
the merge-request queue state is unchanged. -/
theorem mq_migrate_dry_run (parse : Issue → Option MRFields)
    (existing : List MR) (allIssues : List Issue) (rigName : String) :
    runMqMigrate parse true existing allIssues rigName = [] ∧
    mqStateAfter parse true existing allIssues rigName = existing := by
  have h1 : runMqMigrate parse true existing allIssues rigName = [] := by
    unfold runMqMigrate
    rw [List.filterMap_eq_nil_iff]
    intro a _
    cases parse a <;> rfl
  refine ⟨h1, ?_⟩
  unfold mqStateAfter
  rw [h1, List.append_nil]

/-- C9: every entry `runMqMigrate` submits comes from an issue of type
`merge-request` with status `open` whose id is not already queued and whose
description yields MR fields; the entry is exactly the one built from those
fields.  All other issues are skipped without submission. -/
theorem mq_migrate_submit_only_if (parse : Issue → Option MRFields)
    (existing : List MR) (allIssues : List Issue) (rigName : String)
    (entry : MR)
    (h : entry ∈ runMqMigrate parse false existing allIssues rigName) :
    ∃ issue ∈ allIssues, issue.issueType = "merge-request" ∧
      issue.status = "open" ∧ (∀ m ∈ existing, m.id ≠ issue.id) ∧
      ∃ f, parse issue = some f ∧ entry = mkEntry issue f rigName := by
  unfold runMqMigrate at h
  rw [List.mem_filterMap] at h
  obtain ⟨issue, hmem, hsome⟩ := h
  rw [List.mem_filter] at hmem
  obtain ⟨hmem2, hnotin⟩ := hmem
  rw [List.mem_filter, Bool.and_eq_true] at hmem2
  obtain ⟨hall, htyp, hst⟩ := hmem2
  refine ⟨issue, hall, eq_of_beq htyp, eq_of_beq hst, ?_, ?_⟩
  · intro m hm heq
    rw [Bool.not_eq_true', List.any_eq_false] at hnotin
    exact (hnotin m hm) (by rw [heq]; exact beq_self_eq_true _)
  · cases hp : parse issue with
    | none => rw [hp] at hsome; exact absurd hsome (by simp)
    | some f =>
      rw [hp] at hsome
      simp only [Bool.false_eq_true, if_false] at hsome
      exact ⟨f, rfl, (Option.some.injEq _ _ ▸ hsome).symm⟩

/-- Witness for C9: a concrete open merge-request bead not yet queued is
submitted, and the theorem recovers its provenance. -/
theorem mq_migrate_submit_only_if_witness :
    ∃ issue ∈ [issueAce], issue.issueType = "merge-request" ∧
      issue.status = "open" ∧ (∀ m ∈ ([] : List MR), m.id ≠ issue.id) ∧
      ∃ f, parseAce issue = some f ∧
        mkEntry issueAce fieldsAce "gastown" = mkEntry issue f "gastown" :=
  mq_migrate_submit_only_if parseAce [] [issueAce] "gastown"
    (mkEntry issueAce fieldsAce "gastown") (by decide)

/-! ## Doctor sync-branch fix idempotence (C10) -/

theorem containsSub_append {c t sub : String}
    (h : containsSub t sub = true) : containsSub (c ++ t) sub = true := by
  rw [containsSub, decide_eq_true_eq] at h ⊢
  obtain ⟨u, v, huv⟩ := h
  exact ⟨c.data ++ u, v, by rw [String.data_append, ← huv]; simp⟩

theorem containsSub_syncBranchLine :
    containsSub syncBranchLine "sync-branch:" = true := by
  rw [containsSub, decide_eq_true_eq]
  exact ⟨[], (" beads-sync\n").data, by decide⟩

theorem fixContent_of_contains {c : String}
    (h : containsSub c "sync-branch:" = true) : fixContent c = c := by
  unfold fixContent
  rw [if_pos h]

theorem containsSub_fixContent (c : String) :
    containsSub (fixContent c) "sync-branch:" = true := by
  unfold fixContent
  by_cases h : containsSub c "sync-branch:" = true
  · rw [if_pos h]; exact h
  · rw [if_neg h]
    exact containsSub_append containsSub_syncBranchLine

/-- C10: `BeadsSyncBranchCheck.Fix` is idempotent — a config already
containing `sync-branch:` is returned unmodified, and running the fix twice
leaves the same file content as running it once. -/
theorem beads_sync_fix_idempotent :
    (∀ c, containsSub c "sync-branch:" = true → fixContent c = c) ∧
    (∀ c, fixContent (fixContent c) = fixContent c) ∧
    (∀ r f, fixRun r (fixRun r f) = fixRun r f) := by
  refine ⟨fun c h => fixContent_of_contains h,
    fun c => fixContent_of_contains (containsSub_fixContent c), ?_⟩
  intro r f
  by_cases hr : (r == "") = true
  · simp [fixRun, hr]
  · have hr' : (r == "") = false := by simpa using hr
    cases f with
    | none => simp [fixRun, hr']
    | some c =>
      simp only [fixRun, hr', Bool.false_eq_true, if_false]
      rw [fixContent_of_contains (containsSub_fixContent c)]

/-- Witness for C10: a config that already has the setting is untouched,
and a config without it stabilises after one fix. -/
theorem beads_sync_fix_idempotent_witness :
    fixContent "issue-prefix: gt\nsync-branch: beads-sync\n" =
      "issue-prefix: gt\nsync-branch: beads-sync\n" ∧
    fixRun "nexus" (fixRun "nexus" (some "issue-prefix: gt\n")) =
      fixRun "nexus" (some "issue-prefix: gt\n") :=
  ⟨beads_sync_fix_idempotent.1 _ (by decide),
    beads_sync_fix_idempotent.2.2 "nexus" (some "issue-prefix: gt\n")⟩

/-! ## Bond failure atomicity (C3) -/

/-- C3: a bond call that fails with any validation error leaves the
persistent state exactly as it was — no partial instance or step record is
ever written. -/
theorem bond_error_no_write (cat : String → Option Proto) (tid : String)
    (b : Bindings) (kind : Durability) (ref parent : Option String)
    (st : EngineState) (e : EngineError) (st' : EngineState)
    (h : bond cat tid b kind ref parent st = (.error e, st')) : st' = st := by
  unfold bond at h
  split at h
  · injection h with h1 h2; exact h2.symm
  · split at h
    · injection h with h1 h2; exact h2.symm
    · split at h
      · injection h with h1 h2; exact h2.symm
      · split at h
        · injection h with h1 h2; exact h2.symm
        · split at h
          · injection h with h1 h2; exact h2.symm
          · split at h
            · injection h with h1 h2; exact h2.symm
            · split at h
              · injection h with h1 h2; exact h2.symm
              · injection h with h1 h2; exact absurd h1 (by simp)

/-- Witness for C3: a bond against an empty catalog fails with `NotFound`
and the state is unchanged. -/
theorem bond_error_no_write_witness :
    bond catEmpty "mol-x" [] .durable none none emptyState =
      (.error .notFound, emptyState) ∧ emptyState = emptyState :=
  ⟨rfl, bond_error_no_write catEmpty "mol-x" [] .durable none none
    emptyState .notFound emptyState rfl⟩

/-! ## Terminal instances and `AlreadyFinalized` (C4) -/

theorem setInstStatus_append (l1 l2 : List Instance) (iid : String)
    (s : InstStatus) :
    setInstStatus (l1 ++ l2) iid s =
      setInstStatus l1 iid s ++ setInstStatus l2 iid s := by
  induction l1 with
  | nil => rfl
  | cons a rest ih =>
    rw [List.cons_append, setInstStatus, ih]
    rfl

theorem find?_setInstStatus :
    ∀ (l : List Instance) (iid : String) (s : InstStatus),
      List.find? (fun i2 => i2.id == iid) (setInstStatus l iid s) =
        Option.map (fun i2 => { i2 with status := s })
          (List.find? (fun i2 => i2.id == iid) l) := by
  intro l iid s
  induction l with
  | nil => rfl
  | cons a rest ih =>
    rw [setInstStatus]
    by_cases ha : (a.id == iid) = true
    · rw [if_pos ha]
      simp only [List.find?_cons, ha]
      rfl
    · have ha' : (a.id == iid) = false := by simpa using ha
      rw [if_neg ha]
      simp only [List.find?_cons, ha']
      exact ih

theorem findInst_markStatus (st : EngineState) (iid : String) (s : InstStatus) :
    findInst (markStatus st iid s) iid =
      Option.map (fun i2 => { i2 with status := s }) (findInst st iid) := by
  unfold findInst markStatus
  dsimp only
  rw [← setInstStatus_append]
  exact find?_setInstStatus (st.durable.instances ++ st.ephemeral.instances) iid s

theorem findInst_after_squash {st st' : EngineState} {iid s : String}
    {inst : Instance} {d : Digest}
    (hf : findInst st iid = some inst)
    (hsq : squash iid s st = (.ok d, st')) :
    findInst st' iid = some { inst with status := .squashed } := by
  unfold squash at hsq
  simp only [hf] at hsq
  by_cases ht : terminal inst.status = true
  · rw [if_pos ht] at hsq
    exact absurd hsq (by simp)
  · rw [if_neg ht] at hsq
    cases hk : inst.kind with
    | durable =>
      simp only [hk] at hsq
      injection hsq with h1 h2
      rw [← h2]
      show findInst (markStatus st iid .squashed) iid = _
      rw [findInst_markStatus, hf]
      simp [hk]
    | ephemeral =>
      simp only [hk] at hsq
      injection hsq with h1 h2
      rw [← h2]
      show findInst (markStatus st iid .squashed) iid = _
      rw [findInst_markStatus, hf]
      simp [hk]

theorem findInst_removeInst (st : EngineState) (iid : String) :
    findInst (removeInst st iid) iid = none := by
  unfold findInst removeInst
  dsimp only
  rw [List.find?_eq_none]
  intro x hx
  rcases List.mem_append.mp hx with hx | hx <;>
    · have hxf := (List.mem_filter.mp hx).2
      simp only [Bool.not_eq_true'] at hxf
      simp [hxf]

/-- C4: squash and burn on an instance in a terminal status fail with
`AlreadyFinalized` (a hard error, not an idempotent no-op); in particular
after a successful squash a burn of the same instance fails with
`AlreadyFinalized`, and after a successful burn a squash of the same
instance fails. -/
theorem finalize_terminal_hard_error (st : EngineState) (iid s r : String)
    (inst : Instance) (d : Digest) (st' st2 : EngineState) :
    ((findInst st iid = some inst → terminal inst.status = true →
      squash iid s st = (.error .alreadyFinalized, st) ∧
      burn iid r st = (.error .alreadyFinalized, st))) ∧
    (squash iid s st = (.ok d, st') →
      burn iid r st' = (.error .alreadyFinalized, st')) ∧
    (burn iid r st = (.ok (), st2) →
      squash iid s st2 = (.error .notFound, st2)) := by
  refine ⟨?_, ?_, ?_⟩
  · intro hf ht
    constructor
    · unfold squash
      simp only [hf]
      rw [if_pos ht]
    · unfold burn
      simp only [hf]
      rw [if_pos ht]
  · intro hsq
    cases hf : findInst st iid with
    | none =>
      unfold squash at hsq
      simp only [hf] at hsq
      exact absurd hsq (by simp)
    | some inst0 =>
      have hfi := findInst_after_squash hf hsq
      unfold burn
      simp only [hfi]
      rw [if_pos (show terminal ({ inst0 with status := InstStatus.squashed } :
        Instance).status = true from rfl)]
  · intro hb
    unfold burn at hb
    cases hf : findInst st iid with
    | none =>
      simp only [hf] at hb
      exact absurd hb (by simp)
    | some inst0 =>
      simp only [hf] at hb
      by_cases ht : terminal inst0.status = true
      · rw [if_pos ht] at hb
        exact absurd hb (by simp)
      · rw [if_neg ht] at hb
        injection hb with h1 h2
        unfold squash
        rw [← h2]
        simp only [findInst_removeInst]

/-- Witness for C4: on a state holding a squashed durable instance both
terminal operations fail with `AlreadyFinalized`. -/
theorem finalize_terminal_hard_error_witness :
    squash "mol-b" "done" stateSq = (.error .alreadyFinalized, stateSq) ∧
    burn "mol-b" "stale" stateSq = (.error .alreadyFinalized, stateSq) :=
  (finalize_terminal_hard_error stateSq "mol-b" "done" "stale" instSq
    { instId := "mol-b", summary := "" } stateSq stateSq).1
    (by decide) (by decide)

/-! ## Squash effects (C5) -/

/-- C5: a successful `squash(instanceID, summary)` produces the Digest
`⟨instanceID, summary⟩` and persists it in the durable store; a durable
instance keeps all step records, while an ephemeral instance has exactly
its own step records deleted from the ephemeral store (the durable store's
steps untouched). -/
theorem squash_effects (st : EngineState) (iid summary : String)
    (inst : Instance) (d : Digest) (st' : EngineState)
    (hf : findInst st iid = some inst)
    (hsq : squash iid summary st = (.ok d, st')) :
    d = { instId := iid, summary := summary } ∧ d ∈ st'.digests ∧
    (inst.kind = .durable → st'.durable.steps = st.durable.steps ∧
      st'.ephemeral.steps = st.ephemeral.steps) ∧
    (inst.kind = .ephemeral →
      st'.ephemeral.steps =
        st.ephemeral.steps.filter (fun s2 => !(s2.parent == iid)) ∧
      st'.durable.steps = st.durable.steps) := by
  unfold squash at hsq
  simp only [hf] at hsq
  by_cases ht : terminal inst.status = true
  · rw [if_pos ht] at hsq
    exact absurd hsq (by simp)
  · rw [if_neg ht] at hsq
    cases hk : inst.kind with
    | durable =>
      simp only [hk] at hsq
      injection hsq with h1 h2
      injection h1 with h1'
      refine ⟨h1'.symm, ?_, fun _ => ?_, fun hke => ?_⟩
      · rw [← h2, ← h1']
        exact List.mem_cons_self _ _
      · rw [← h2]
        exact ⟨rfl, rfl⟩
      · exact absurd hke (by simp)
    | ephemeral =>
      simp only [hk] at hsq
      injection hsq with h1 h2
      injection h1 with h1'
      refine ⟨h1'.symm, ?_, fun hkd => ?_, fun _ => ?_⟩
      · rw [← h2, ← h1']
        exact List.mem_cons_self _ _
      · exact absurd hkd (by simp)
      · rw [← h2]
        exact ⟨rfl, rfl⟩

/-- Witness for C5: squashing the wisp deletes its step records from the
ephemeral store and persists the Digest carrying the summary. -/
theorem squash_effects_witness :
    ({ instId := "wisp-c", summary := "ok" } : Digest) =
      { instId := "wisp-c", summary := "ok" } ∧
    ({ instId := "wisp-c", summary := "ok" } : Digest) ∈ stateWispSq.digests ∧
    (instWisp.kind = .durable →
      stateWispSq.durable.steps = stateWisp.durable.steps ∧
      stateWispSq.ephemeral.steps = stateWisp.ephemeral.steps) ∧
    (instWisp.kind = .ephemeral →
      stateWispSq.ephemeral.steps =
        stateWisp.ephemeral.steps.filter (fun s2 => !(s2.parent == "wisp-c")) ∧
      stateWispSq.durable.steps = stateWisp.durable.steps) :=
  squash_effects stateWisp "wisp-c" "ok" instWisp
    { instId := "wisp-c", summary := "ok" } stateWispSq (by decide) (by rfl)

/-! ## Bond acyclicity (C2) -/

theorem buildSteps_parent {b : Bindings} {instId : String} :
    ∀ {j : Nat} {ts : List StepTemplate} {steps : List Step},
      buildSteps b instId j ts = .ok steps → ∀ s ∈ steps, s.parent = instId := by
  intro j ts
  induction ts generalizing j with
  | nil =>
    intro steps h s hs
    simp only [buildSteps] at h
    injection h with h'
    rw [← h'] at hs
    cases hs
  | cons t rest ih =>
    intro steps h s hs
    simp only [buildSteps] at h
    split at h
    · exact absurd h (by simp)
    · split at h
      · exact absurd h (by simp)
      · split at h
        · exact absurd h (by simp)
        · rename_i others h3
          injection h with h'
          rw [← h'] at hs
          rcases List.mem_cons.mp hs with rfl | hs2
          · rfl
          · exact ih h3 s hs2

theorem buildSteps_ids {b : Bindings} {instId : String} :
    ∀ {j : Nat} {ts : List StepTemplate} {steps : List Step},
      buildSteps b instId j ts = .ok steps →
      steps.map (fun s => s.id) = idsFrom instId j ts := by
  intro j ts
  induction ts generalizing j with
  | nil =>
    intro steps h
    injection h with h'
    rw [← h']
    rfl
  | cons t rest ih =>
    intro steps h
    simp only [buildSteps] at h
    split at h
    · exact absurd h (by simp)
    · split at h
      · exact absurd h (by simp)
      · split at h
        · exact absurd h (by simp)
        · rename_i others h3
          injection h with h'
          rw [← h', List.map_cons, ih h3]
          rfl

theorem buildSteps_edges {b : Bindings} {instId : String} :
    ∀ {j : Nat} {ts : List StepTemplate} {steps : List Step},
      buildSteps b instId j ts = .ok steps →
      (steps.map (fun s => s.needs.map (fun n => (s.id, n)))).flatten =
        edgesFrom instId j ts := by
  intro j ts
  induction ts generalizing j with
  | nil =>
    intro steps h
    injection h with h'
    rw [← h']
    rfl
  | cons t rest ih =>
    intro steps h
    simp only [buildSteps] at h
    split at h
    · exact absurd h (by simp)
    · split at h
      · exact absurd h (by simp)
      · split at h
        · exact absurd h (by simp)
        · rename_i others h3
          injection h with h'
          rw [← h', List.map_cons, List.flatten_cons, List.map_map, ih h3]
          rfl

theorem instSteps_addToStore {S : Store} {inst2 : Instance} {ss : List Step}
    {iid : String} (hpar : ∀ s ∈ ss, s.parent = iid) :
    instSteps (addToStore S inst2 ss) iid = ss ++ instSteps S iid := by
  unfold instSteps addToStore
  dsimp only
  rw [List.filter_append]
  congr 1
  rw [List.filter_eq_self]
  intro a ha
  rw [hpar a ha]
  exact beq_self_eq_true _

theorem instNodes_addToStore {S : Store} {inst2 : Instance} {ss : List Step}
    {b : Bindings} {j : Nat} {ts : List StepTemplate} {iid : String}
    (hss : buildSteps b iid j ts = .ok ss) :
    instNodes (addToStore S inst2 ss) iid = idsFrom iid j ts ++ instNodes S iid := by
  unfold instNodes
  rw [instSteps_addToStore (buildSteps_parent hss), List.map_append,
    buildSteps_ids hss]

theorem instEdges_addToStore {S : Store} {inst2 : Instance} {ss : List Step}
    {b : Bindings} {j : Nat} {ts : List StepTemplate} {iid : String}
    (hss : buildSteps b iid j ts = .ok ss) :
    instEdges (addToStore S inst2 ss) iid = edgesFrom iid j ts ++ instEdges S iid := by
  unfold instEdges
  rw [instSteps_addToStore (buildSteps_parent hss), List.map_append,
    List.flatten_append, buildSteps_edges hss]

theorem storeOf_setStore (st : EngineState) (kind : Durability) (s : Store) :
    storeOf (setStore st kind s) kind = s := by
  cases kind <;> rfl

/-- C2: a successfully bonded instance tree admits a topological ordering
of its `Needs` relation; and when the proposed dependencies merged with the
instance's existing edges admit no topological ordering, `bond` fails with
`CycleError` before any write occurs (the state is returned untouched). -/
theorem bond_acyclic (cat : String → Option Proto) (tid : String)
    (b : Bindings) (kind : Durability) (ref parent : Option String)
    (st : EngineState) (p : Proto) (inst : Instance) (st' : EngineState) :
    (bond cat tid b kind ref parent st = (.ok inst, st') →
      ∃ L : List String,
        (∀ x, x ∈ L ↔ x ∈ instNodes (storeOf st' kind) inst.id) ∧
        isTopo (instEdges (storeOf st' kind) inst.id) L = true) ∧
    (cat tid = some p → p.labels.contains "template" = true →
      nonTerminalExists st (instIdOf ref tid) = false →
      (∃ t2, resolve p.titleP b = .ok t2) →
      (∃ d2, resolve p.descrP b = .ok d2) →
      (∃ ss, buildSteps b (instIdOf ref tid) 0 p.steps = .ok ss) →
      (¬ ∃ L : List String,
        (∀ x, x ∈ L ↔ x ∈ mergedNodes st kind (instIdOf ref tid) p.steps) ∧
        isTopo (mergedEdges st kind (instIdOf ref tid) p.steps) L = true) →
      bond cat tid b kind ref parent st = (.error .cycleError, st)) := by
  constructor
  · intro hb
    unfold bond at hb
    split at hb
    · exact absurd hb (by simp)
    · rename_i p0 hcat0
      split at hb
      · exact absurd hb (by simp)
      · split at hb
        · exact absurd hb (by simp)
        · split at hb
          · exact absurd hb (by simp)
          · split at hb
            · exact absurd hb (by simp)
            · split at hb
              · exact absurd hb (by simp)
              · rename_i newSteps hss
                split at hb
                · exact absurd hb (by simp)
                · rename_i hva2
                  injection hb with h1 h2
                  injection h1 with h1'
                  have hva : validateAcyclic
                      (mergedNodes st kind (instIdOf ref tid) p0.steps)
                      (mergedEdges st kind (instIdOf ref tid) p0.steps) = true := by
                    cases hvv : validateAcyclic
                        (mergedNodes st kind (instIdOf ref tid) p0.steps)
                        (mergedEdges st kind (instIdOf ref tid) p0.steps) with
                    | false => exact absurd hvv hva2
                    | true => rfl
                  obtain ⟨L, hmem, htopo⟩ := (validateAcyclic_iff _ _).mp hva
                  have hid : inst.id = instIdOf ref tid :=
                    (congrArg Instance.id h1').symm
                  rw [hid, ← h2, storeOf_setStore,
                    instNodes_addToStore hss, instEdges_addToStore hss]
                  exact ⟨L, hmem, htopo⟩
  · intro hcat hlab hdup ht2 hd2 hss2 hcyc
    obtain ⟨t2, ht⟩ := ht2
    obtain ⟨d2, hd⟩ := hd2
    obtain ⟨ss, hss⟩ := hss2
    have hva : validateAcyclic (mergedNodes st kind (instIdOf ref tid) p.steps)
        (mergedEdges st kind (instIdOf ref tid) p.steps) = false := by
      cases hvv : validateAcyclic (mergedNodes st kind (instIdOf ref tid) p.steps)
          (mergedEdges st kind (instIdOf ref tid) p.steps) with
      | true => exact absurd ((validateAcyclic_iff _ _).mp hvv) hcyc
      | false => rfl
    unfold bond
    simp only [hcat, ht, hd, hss]
    rw [hlab, if_neg (by simp), hdup, if_neg (by simp), hva, if_pos rfl]

/-- Witness for C2: bonding a template whose two steps need each other is
rejected with `CycleError` and the empty state is untouched. -/
theorem bond_acyclic_witness :
    bond catCyc "mol-cyc" [] .durable none none emptyState =
      (.error .cycleError, emptyState) :=
  (bond_acyclic catCyc "mol-cyc" [] .durable none none emptyState protoCyc
    { id := "", kind := .durable, status := .active, title := "", descr := ""
      bindings := [], parent := none } emptyState).2
    (by decide) (by decide) (by decide) ⟨"", rfl⟩ ⟨"", rfl⟩ ⟨_, rfl⟩
    (fun hex => absurd ((validateAcyclic_iff _ _).mpr hex) (by decide))

end Gastown
